import Mathlib

/-!
Verification of the BTD dashboard decision pipeline.

The Python sources are shallowly embedded over exact rationals (`ℚ`):
Python floats become `ℚ`, `None`-able results become `Option`, dicts keyed
by coin become association-list lookups with Python's last-write-wins
semantics.  `round(x, 2)` is embedded as round-half-to-even on hundredths
(`round2`), matching Python's banker rounding.

File layout: all definitions (the embedding) first, then the lemmas and
the claim theorems.
-/

namespace Config

/-- config.py: COLLATERAL_FRACTION = 0.35 -/
def COLLATERAL_FRACTION : ℚ := 0.35

/-- config.py: EMERGENCY_FLOOR = 50_000 -/
def EMERGENCY_FLOOR : ℚ := 50000

/-- config.py: EMERGENCY_PCT = 0.08 -/
def EMERGENCY_PCT : ℚ := 0.08

/-- config.py: OPS_RESERVE = 5_000 -/
def OPS_RESERVE : ℚ := 5000

/-- config.py: MAX_NAMES = 6 -/
def MAX_NAMES : ℕ := 6

/-- config.py: MAX_CONCENTRATION = 0.50 -/
def MAX_CONCENTRATION : ℚ := 0.50

/-- config.py: ALLOCATION_DUST_USD = 100 -/
def ALLOCATION_DUST_USD : ℚ := 100

/-- config.py: TAKER_FEE_PCT = 0.00045 -/
def TAKER_FEE_PCT : ℚ := 0.00045

/-- config.py: DEFAULT_COINBASE_APR = 3.50 -/
def DEFAULT_COINBASE_APR : ℚ := 3.50

/-- config.py: DEFAULT_INSURANCE_BUDGET_PCT = 1.50 -/
def DEFAULT_INSURANCE_BUDGET_PCT : ℚ := 1.50

/-- config.py: EMA_3D_EPOCHS = 9 -/
def EMA_3D_EPOCHS : ℕ := 9

/-- config.py: EMA_7D_EPOCHS = 21 -/
def EMA_7D_EPOCHS : ℕ := 21

/-- config.py: EMA_3D_ALPHA = 2 / (EMA_3D_EPOCHS + 1) -/
def EMA_3D_ALPHA : ℚ := 2 / (EMA_3D_EPOCHS + 1)

/-- config.py: EMA_7D_ALPHA = 2 / (EMA_7D_EPOCHS + 1) -/
def EMA_7D_ALPHA : ℚ := 2 / (EMA_7D_EPOCHS + 1)

/-- config.py: REBALANCE_HORIZON_DAYS = 7 -/
def REBALANCE_HORIZON_DAYS : ℚ := 7

/-- config.py: REBALANCE_COST_MULTIPLIER = 1.5 -/
def REBALANCE_COST_MULTIPLIER : ℚ := 1.5

/-- config.py: REBALANCE_FRICTION_BPS = 5 -/
def REBALANCE_FRICTION_BPS : ℚ := 5

/-- config.py: REBALANCE_MIN_GAIN_USD = 1.0 -/
def REBALANCE_MIN_GAIN_USD : ℚ := 1.0

/-- config.py: BudgetBuckets (TypedDict). -/
structure BudgetBuckets where
  budget : ℚ
  emergency : ℚ
  ops_reserve : ℚ
  deployable : ℚ
  h_max : ℚ
  min_ticket : ℚ
  deriving Repr, DecidableEq

/-- config.py: compute_budget_buckets.  `float(budget or 0)` is the identity
on numeric budgets, so the embedding starts at `max budget 0`. -/
def compute_budget_buckets (budget : ℚ) : BudgetBuckets :=
  let b : ℚ := max budget 0
  let emergency_target := max EMERGENCY_FLOOR (EMERGENCY_PCT * b)
  let emergency := min b emergency_target
  let remaining := max 0 (b - emergency)
  let ops_reserve := min OPS_RESERVE remaining
  let deployable := remaining - ops_reserve
  let h_max := if 0 < COLLATERAL_FRACTION then deployable / (1 + COLLATERAL_FRACTION) else 0
  { budget := b
    emergency := emergency
    ops_reserve := ops_reserve
    deployable := deployable
    h_max := h_max
    min_ticket := ALLOCATION_DUST_USD }

end Config

/-- Python `round(x, 2)` at integer scale: round-half-to-even of a rational. -/
def r2i (q : ℚ) : ℤ :=
  if Int.fract q < 1 / 2 then ⌊q⌋
  else if 1 / 2 < Int.fract q then ⌊q⌋ + 1
  else if ⌊q⌋ % 2 = 0 then ⌊q⌋ else ⌊q⌋ + 1

/-- Python `round(x, 2)`: round-half-to-even on hundredths. -/
def round2 (q : ℚ) : ℚ := (r2i (q * 100) : ℚ) / 100

namespace Allocator

/-- engine/allocator.py: Position — a single position in the target
portfolio. -/
structure Position where
  coin : String
  ticker : String
  hedge_symbol : String
  rank : ℕ
  alloc_notional : ℚ
  alloc_pct : ℚ
  cap_oi : ℚ
  cap_vol : ℚ
  cap_impact : ℚ
  cap_conc : ℚ
  cap_final : ℚ
  binding_cap : String
  forecast_apr : ℚ
  net_apr : ℚ
  slippage_drag_apr : ℚ
  fee_drag_apr : ℚ
  score : ℚ
  ema_3d : ℚ
  ema_7d : ℚ
  weekend_mult : ℚ
  deriving Repr, DecidableEq

/-- engine/scanner.py: the Candidate fields consumed by the allocator. -/
structure Candidate where
  coin : String
  ticker : String
  hedge_symbol : String
  score : ℚ
  cap_oi : ℚ
  cap_vol : ℚ
  cap_impact : ℚ
  forecast_apr : ℚ
  slippage_drag_apr : ℚ
  fee_drag_apr : ℚ
  ema_3d : ℚ
  ema_7d : ℚ
  weekend_mult : ℚ
  deriving Repr, DecidableEq

/-- engine/allocator.py: Portfolio — the complete target portfolio. -/
structure Portfolio where
  positions : List Position
  budget : ℚ
  emergency : ℚ
  deployable : ℚ
  h_max : ℚ
  total_hedge_notional : ℚ
  perp_collateral : ℚ
  coinbase_treasury : ℚ
  coinbase_total : ℚ
  portfolio_net_apr : ℚ
  portfolio_usd_day : ℚ
  num_positions : ℕ
  deriving Repr, DecidableEq

/-- engine/allocator.py: _binding_cap.  Python's `min` over the
insertion-ordered dict `{oi, vol, impact, conc, budget}` returns the first
key attaining the minimal value.  The `alloc` argument is unused, as in the
source. -/
def bindingCap (alloc cap_oi cap_vol cap_impact cap_conc remaining : ℚ) : String :=
  let m := min cap_oi (min cap_vol (min cap_impact (min cap_conc remaining)))
  if cap_oi = m then "oi"
  else if cap_vol = m then "vol"
  else if cap_impact = m then "impact"
  else if cap_conc = m then "conc"
  else "budget"

/-- engine/allocator.py: the `for cand in candidates` waterfall loop of
build_portfolio, with loop state (remaining, positions).  `break` returns
the accumulated positions; `continue` recurses with unchanged state. -/
def waterfall (h_max dust : ℚ) : List Candidate → ℚ → List Position → List Position
  | [], _, positions => positions
  | cand :: rest, remaining, positions =>
    if Config.MAX_NAMES ≤ positions.length then positions
    else if remaining ≤ dust then positions
    else
      let cap_conc := Config.MAX_CONCENTRATION * h_max
      let cap_final := min (min (min cand.cap_oi cand.cap_vol) cand.cap_impact) cap_conc
      let alloc := min cap_final remaining
      if alloc < dust then waterfall h_max dust rest remaining positions
      else
        waterfall h_max dust rest (remaining - alloc)
          (positions ++ [{
            coin := cand.coin
            ticker := cand.ticker
            hedge_symbol := cand.hedge_symbol
            rank := positions.length + 1
            alloc_notional := round2 alloc
            alloc_pct := 0
            cap_oi := round2 cand.cap_oi
            cap_vol := round2 cand.cap_vol
            cap_impact := round2 cand.cap_impact
            cap_conc := round2 cap_conc
            cap_final := round2 cap_final
            binding_cap := bindingCap alloc cand.cap_oi cand.cap_vol cand.cap_impact cap_conc remaining
            forecast_apr := cand.forecast_apr
            net_apr := cand.score
            slippage_drag_apr := cand.slippage_drag_apr
            fee_drag_apr := cand.fee_drag_apr
            score := cand.score
            ema_3d := cand.ema_3d
            ema_7d := cand.ema_7d
            weekend_mult := cand.weekend_mult }])

/-- `sum(p.alloc_notional for p in positions)`. -/
def sumAlloc (ps : List Position) : ℚ := (ps.map Position.alloc_notional).sum

/-- engine/allocator.py: _empty_portfolio. -/
def _empty_portfolio (budget emergency deployable h_max : ℚ) : Portfolio :=
  { positions := []
    budget := round2 budget
    emergency := round2 emergency
    deployable := round2 deployable
    h_max := round2 h_max
    total_hedge_notional := 0
    perp_collateral := 0
    coinbase_treasury := round2 deployable
    coinbase_total := round2 budget
    portfolio_net_apr := 0
    portfolio_usd_day := 0
    num_positions := 0 }

/-- engine/allocator.py: build_portfolio — greedy water-fill allocation. -/
def build_portfolio (candidates : List Candidate) (budget0 : ℚ) : Portfolio :=
  let buckets := Config.compute_budget_buckets budget0
  let emergency := buckets.emergency
  let deployable := buckets.deployable
  let h_max := buckets.h_max
  let dust := buckets.min_ticket
  let ops_reserve := buckets.ops_reserve
  let budget := buckets.budget
  if h_max ≤ 0 then _empty_portfolio budget emergency deployable h_max
  else
    let positions0 := waterfall h_max dust candidates h_max []
    let h_total := sumAlloc positions0
    let positions := positions0.map fun p =>
      { p with alloc_pct := round2 (if 0 < h_total then p.alloc_notional / h_total * 100 else 0) }
    let perp_collateral := Config.COLLATERAL_FRACTION * h_total
    let coinbase_treasury := deployable - h_total - perp_collateral
    let coinbase_total := emergency + ops_reserve + coinbase_treasury
    let portfolio_net_apr :=
      if 0 < budget ∧ 0 < h_total then
        ((positions.map fun p => p.net_apr / 100 * (p.alloc_notional / budget)).sum) * 100
          + Config.DEFAULT_COINBASE_APR / 100 * (coinbase_total / budget) * 100
          - Config.DEFAULT_INSURANCE_BUDGET_PCT
      else 0
    let portfolio_usd_day := portfolio_net_apr / 100 * budget / 365
    { positions := positions
      budget := round2 budget
      emergency := round2 emergency
      deployable := round2 deployable
      h_max := round2 h_max
      total_hedge_notional := round2 h_total
      perp_collateral := round2 perp_collateral
      coinbase_treasury := round2 coinbase_treasury
      coinbase_total := round2 coinbase_total
      portfolio_net_apr := round2 portfolio_net_apr
      portfolio_usd_day := round2 portfolio_usd_day
      num_positions := positions.length }

end Allocator

/-! Sample candidates used by concrete witnesses. -/

/-- A candidate with roomy caps (the allocation is budget/concentration
limited). -/
def candRoomy : Allocator.Candidate :=
  { coin := "xyz:ROOM", ticker := "ROOM", hedge_symbol := "ROOM", score := 25
    cap_oi := 5000, cap_vol := 6000, cap_impact := 7000
    forecast_apr := 30, slippage_drag_apr := 1, fee_drag_apr := 4
    ema_3d := 20, ema_7d := 18, weekend_mult := 1 }

/-- A candidate whose caps are all below the $100 dust floor. -/
def candTiny : Allocator.Candidate :=
  { coin := "xyz:TINY", ticker := "TINY", hedge_symbol := "TINY", score := 15
    cap_oi := 50, cap_vol := 50, cap_impact := 50
    forecast_apr := 20, slippage_drag_apr := 1, fee_drag_apr := 4
    ema_3d := 20, ema_7d := 18, weekend_mult := 1 }

/-- The single position built from `candRoomy` at budget 190000. -/
def posRoomy : Allocator.Position :=
  { coin := "xyz:ROOM", ticker := "ROOM", hedge_symbol := "ROOM", rank := 1
    alloc_notional := 5000, alloc_pct := 100
    cap_oi := 5000, cap_vol := 6000, cap_impact := 7000, cap_conc := 50000
    cap_final := 5000, binding_cap := "oi"
    forecast_apr := 30, net_apr := 25, slippage_drag_apr := 1, fee_drag_apr := 4
    score := 25, ema_3d := 20, ema_7d := 18, weekend_mult := 1 }

namespace Hyperliquid

/-- engine/hyperliquid.py: one L2 level `{px, sz}`. -/
structure Level where
  px : ℚ
  sz : ℚ
  deriving Repr, DecidableEq

/-- engine/hyperliquid.py: the book shape returned by fetch_l2_book. -/
structure Book where
  bids : List Level
  asks : List Level
  deriving Repr, DecidableEq

/-- engine/hyperliquid.py: the `for level in levels` walk of compute_impact.
State is `(total_cost, total_filled, remaining)`; the partial-fill branch
sets `remaining = 0` and breaks. -/
def walk : List Level → ℚ → ℚ → ℚ → ℚ × ℚ × ℚ
  | [], total_cost, total_filled, remaining => (total_cost, total_filled, remaining)
  | level :: rest, total_cost, total_filled, remaining =>
    let level_notional := level.px * level.sz
    if remaining ≤ level_notional then
      let fill_sz := if 0 < level.px then remaining / level.px else 0
      (total_cost + remaining, total_filled + fill_sz, 0)
    else
      walk rest (total_cost + level_notional) (total_filled + level.sz)
        (remaining - level_notional)

/-- engine/hyperliquid.py: compute_impact — execution slippage of a
notional order.  `if not bids or not asks` is the empty-side match. -/
def compute_impact (book : Book) (notional : ℚ) (side : String) : ℚ :=
  match book.bids, book.asks with
  | [], _ => 1
  | _ :: _, [] => 1
  | b0 :: _, a0 :: _ =>
    let mid := (b0.px + a0.px) / 2
    if mid ≤ 0 then 1
    else
      let levels := if side = "sell" then book.bids else book.asks
      let w := walk levels 0 0 notional
      if w.2.1 ≤ 0 ∨ 0 < w.2.2 then 1
      else |w.1 / w.2.1 - mid| / mid

/-- `sum(l.px * l.sz for l in levels)` — the notional depth of one side,
as in find_max_notional_for_impact. -/
def depth (levels : List Level) : ℚ := (levels.map fun l => l.px * l.sz).sum

/-- A valid book in the sense of the spec: both sides non-empty, bids
descending, asks ascending, positive prices and sizes. -/
def validBook (book : Book) : Prop :=
  book.bids ≠ [] ∧ book.asks ≠ [] ∧
  book.bids.Pairwise (fun a b => b.px ≤ a.px) ∧
  book.asks.Pairwise (fun a b => a.px ≤ b.px) ∧
  (∀ l ∈ book.bids, 0 < l.px ∧ 0 < l.sz) ∧
  (∀ l ∈ book.asks, 0 < l.px ∧ 0 < l.sz)

end Hyperliquid

/-- A valid book on which a fillable buy produces slippage above 1: a thin
near ask level followed by a deep far one. -/
def bookThinAsk : Hyperliquid.Book :=
  { bids := [⟨1, 1⟩], asks := [⟨1, 1 / 1000⟩, ⟨1000, 10⟩] }

/-- A book with an empty bid side. -/
def bookNoBids : Hyperliquid.Book := { bids := [], asks := [⟨1, 1⟩] }

/-- A book whose best bid and ask are both priced 0 (non-positive mid). -/
def bookZeroMid : Hyperliquid.Book := { bids := [⟨0, 1⟩], asks := [⟨0, 1⟩] }

/-- A one-level book with only $1 of depth per side. -/
def bookShallow : Hyperliquid.Book := { bids := [⟨1, 1⟩], asks := [⟨1, 1⟩] }

namespace Scanner

/-- engine/scanner.py: an 8h funding epoch; compute_dual_ema reads only the
`apr` entry of each epoch dict. -/
structure Epoch where
  apr : ℚ
  deriving Repr, DecidableEq

/-- engine/scanner.py: _ema — EMA over a list of values (oldest first),
seeded with the first value. -/
def _ema (values : List ℚ) (alpha : ℚ) : ℚ :=
  match values with
  | [] => 0
  | v :: rest => rest.foldl (fun e x => alpha * x + (1 - alpha) * e) v

/-- engine/scanner.py: compute_dual_ema — 3-day and 7-day EMA from 8h
epochs; `None` when the strict history requirement is unmet.  The Python
slice `values[-N:]` is `drop (length - N)` (only reached when
`length ≥ N`). -/
def compute_dual_ema (epochs_8h : List Epoch) : Option ℚ × Option ℚ :=
  let apr_values := epochs_8h.map Epoch.apr
  if apr_values.length < Config.EMA_3D_EPOCHS then (none, none)
  else
    let recent_3d := apr_values.drop (apr_values.length - Config.EMA_3D_EPOCHS)
    let ema_3d := _ema recent_3d Config.EMA_3D_ALPHA
    if apr_values.length < Config.EMA_7D_EPOCHS then (some ema_3d, none)
    else
      let recent_7d := apr_values.drop (apr_values.length - Config.EMA_7D_EPOCHS)
      (some ema_3d, some (_ema recent_7d Config.EMA_7D_ALPHA))

/-- engine/scanner.py: the market fields used by the cohort-selection step
of build_candidates (pre-filtered markets paired with their hedge symbol are
modelled by the market alone; the hedge symbol plays no role here). -/
structure Market where
  coin : String
  ticker : String
  funding_apr : ℚ
  volume_24h : ℚ
  oi_usd : ℚ
  deriving Repr, DecidableEq

/-- engine/scanner.py: the `for m in pre_filtered[MAX_DEEP_SCAN:]` extension
loop of build_candidates: extend the cohort while the funding ties the
cutoff, stopping at the hard ceiling. -/
def extendCohort (cutoff : ℚ) (HARD : ℕ) : List Market → List Market → List Market
  | [], acc => acc
  | m :: rest, acc =>
    if HARD ≤ acc.length then acc
    else if m.funding_apr < cutoff then acc
    else extendCohort cutoff HARD rest (acc ++ [m])

/-- engine/scanner.py: `pre_filtered[MAX_DEEP_SCAN - 1][0].get("funding_apr")
or 0` — the funding APR at the cohort cutoff index. -/
def cutoffOf (N : ℕ) (pre_filtered : List Market) : ℚ :=
  ((pre_filtered.get? (N - 1)).map Market.funding_apr).getD 0

/-- engine/scanner.py: cohort selection in build_candidates.
`N` stands for `config.MAX_DEEP_SCAN` and `HARD` for
`config.MAX_DEEP_SCAN_HARD`.  Modelled from the spec: these two constants
are referenced by scanner.py but absent from src/config.py; the tests pin
`MAX_DEEP_SCAN ≥ 30` and `MAX_DEEP_SCAN_HARD > MAX_DEEP_SCAN`, so they are
taken as parameters constrained by those bounds. -/
def select_cohort (N HARD : ℕ) (pre_filtered : List Market) : List Market :=
  let deep_scan_set := pre_filtered.take N
  if N < pre_filtered.length then
    extendCohort (cutoffOf N pre_filtered) HARD (pre_filtered.drop N) deep_scan_set
  else deep_scan_set

/-- engine/scanner.py: the rejection record pushed for each market outside
the deep-scan cohort (presentation-only entries omitted). -/
structure CohortRejection where
  coin : String
  ticker : String
  reason : String
  pre_rank : ℕ
  deriving Repr, DecidableEq

/-- The reason string `outside top funding cohort (scanned <k>)`. -/
def cohortReason (k : ℕ) : String :=
  "outside top funding cohort (scanned " ++ toString k ++ ")"

/-- engine/scanner.py: `for idx, (m, _) in enumerate(skipped)` — one
rejection per skipped market, with pre-rank `len(deep_scan_set) + idx + 1`. -/
def rejectSkipped (k : ℕ) : List Market → ℕ → List CohortRejection
  | [], _ => []
  | m :: rest, idx =>
    { coin := m.coin, ticker := m.ticker, reason := cohortReason k,
      pre_rank := k + idx + 1 } :: rejectSkipped k rest (idx + 1)

/-- engine/scanner.py: the rejections produced by the cohort-selection step
(`skipped = pre_filtered[len(deep_scan_set):]`). -/
def cohort_rejections (N HARD : ℕ) (pre_filtered : List Market) : List CohortRejection :=
  let k := (select_cohort N HARD pre_filtered).length
  rejectSkipped k (pre_filtered.drop k) 0

end Scanner

namespace Rebalance

/-- engine/rebalance.py: the position-dict fields consumed by the
rebalance engine (`coin`, `ticker`, `alloc_notional`, `net_apr`, `score`). -/
structure RPos where
  coin : String
  ticker : String
  alloc_notional : ℚ
  net_apr : ℚ
  score : ℚ
  deriving Repr, DecidableEq

/-- `{p["coin"]: p for p in positions}` — later entries overwrite earlier
ones, so lookup is last-write-wins. -/
def mapLookup (ps : List RPos) (c : String) : Option RPos :=
  ps.foldl (fun acc p => if p.coin = c then some p else acc) none

/-- `map.get(coin, {}).get("alloc_notional", 0)`. -/
def getAlloc (ps : List RPos) (c : String) : ℚ :=
  ((mapLookup ps c).map RPos.alloc_notional).getD 0

/-- `set(old_map.keys()) | set(new_map.keys())` — the union as a duplicate
free list; Python iterates it in an unspecified order, and every use below
is an order-insensitive sum. -/
def allCoins (old_positions new_positions : List RPos) : List String :=
  (old_positions.map RPos.coin ++ new_positions.map RPos.coin).dedup

/-- engine/rebalance.py: the per-coin term of compute_switching_cost. -/
def costTerm (old_positions new_positions : List RPos) (coin : String) : ℚ :=
  let old_alloc := getAlloc old_positions coin
  let new_alloc := getAlloc new_positions coin
  let delta := |new_alloc - old_alloc|
  if delta < 100 then 0
  else 2 * Config.TAKER_FEE_PCT * delta + Config.REBALANCE_FRICTION_BPS / 10000 * delta

/-- engine/rebalance.py: compute_switching_cost. -/
def compute_switching_cost (old_positions new_positions : List RPos) : ℚ :=
  ((allCoins old_positions new_positions).map
    (costTerm old_positions new_positions)).sum

/-- engine/rebalance.py: the inner portfolio_yield of compute_expected_gain.
`p.get("net_apr", 0) or p.get("score", 0)` falls back to `score` when
`net_apr` is zero (Python `or` on a falsy float). -/
def portfolio_yield (budget : ℚ) (positions : List RPos) : ℚ :=
  let total_alloc := (positions.map RPos.alloc_notional).sum
  if total_alloc = 0 ∨ budget = 0 then 0
  else
    ((positions.map fun p =>
      (if p.net_apr ≠ 0 then p.net_apr else p.score) / 100 * p.alloc_notional / budget).sum) * 100

/-- engine/rebalance.py: compute_expected_gain. -/
def compute_expected_gain (old_positions new_positions : List RPos) (budget : ℚ) : ℚ :=
  (portfolio_yield budget new_positions - portfolio_yield budget old_positions) / 100
    * budget * Config.REBALANCE_HORIZON_DAYS / 365

/-- engine/rebalance.py: RebalanceDecision.  The rationale string and the
per-position change list are presentation-only and not modelled. -/
structure RebalanceDecision where
  recommendation : String
  expected_gain_usd : ℚ
  estimated_cost_usd : ℚ
  threshold_usd : ℚ
  deriving Repr, DecidableEq

/-- engine/rebalance.py: evaluate_rebalance — SWITCH when
`gain > REBALANCE_MIN_GAIN_USD and gain >= threshold`, else HOLD. -/
def evaluate_rebalance (old_positions new_positions : List RPos) (budget : ℚ) :
    RebalanceDecision :=
  let cost := compute_switching_cost old_positions new_positions
  let gain := compute_expected_gain old_positions new_positions budget
  let threshold := cost * Config.REBALANCE_COST_MULTIPLIER
  { recommendation :=
      if Config.REBALANCE_MIN_GAIN_USD < gain ∧ threshold ≤ gain then "SWITCH" else "HOLD"
    expected_gain_usd := round2 gain
    estimated_cost_usd := round2 cost
    threshold_usd := round2 threshold }

end Rebalance

/-- A pre-filtered market with funding APR 5 (witness data). -/
def mHigh : Scanner.Market :=
  { coin := "xyz:HI", ticker := "HI", funding_apr := 5, volume_24h := 1000, oi_usd := 1000 }

/-- A pre-filtered market with funding APR 3 (witness data). -/
def mLow : Scanner.Market :=
  { coin := "xyz:LO", ticker := "LO", funding_apr := 3, volume_24h := 1000, oi_usd := 1000 }

/-- 31 pre-filtered markets sorted by funding descending: 30 at APR 5
followed by one at APR 3. -/
def pfW : List Scanner.Market := List.replicate 30 mHigh ++ [mLow]

/-- A one-coin portfolio with a very high net APR. -/
def oldHighApr : List Rebalance.RPos :=
  [{ coin := "xyz:A", ticker := "A", alloc_notional := 50000,
     net_apr := 1000, score := 1000 }]

/-- The same portfolio with a $99 (sub-noise-floor) allocation bump. -/
def newHighApr : List Rebalance.RPos :=
  [{ coin := "xyz:A", ticker := "A", alloc_notional := 50099,
     net_apr := 1000, score := 1000 }]

/-! ## Lemmas about rounding -/

theorem floor_le_r2i (q : ℚ) : ⌊q⌋ ≤ r2i q := by
  unfold r2i; split_ifs <;> omega

theorem r2i_le_floor_add_one (q : ℚ) : r2i q ≤ ⌊q⌋ + 1 := by
  unfold r2i; split_ifs <;> omega

theorem r2i_mono {a b : ℚ} (h : a ≤ b) : r2i a ≤ r2i b := by
  have hf : ⌊a⌋ ≤ ⌊b⌋ := Int.floor_mono h
  rcases lt_or_eq_of_le hf with hlt | heq
  · have h1 := r2i_le_floor_add_one a
    have h2 := floor_le_r2i b
    omega
  · have hfr : Int.fract a ≤ Int.fract b := by
      simp only [Int.fract]
      rw [heq]
      linarith
    unfold r2i
    rw [heq]
    split_ifs <;> first | omega | linarith

theorem r2i_zero : r2i 0 = 0 := by
  unfold r2i
  norm_num

theorem round2_mono {a b : ℚ} (h : a ≤ b) : round2 a ≤ round2 b := by
  unfold round2
  have h1 : r2i (a * 100) ≤ r2i (b * 100) := r2i_mono (by linarith)
  have h100 : (0 : ℚ) ≤ 100 := by norm_num
  exact div_le_div_of_nonneg_right (by exact_mod_cast h1) h100

theorem round2_zero : round2 0 = 0 := by
  unfold round2
  norm_num [r2i_zero]

theorem round2_nonneg {a : ℚ} (h : 0 ≤ a) : 0 ≤ round2 a := by
  have := round2_mono h
  rwa [round2_zero] at this

theorem round2_min (a b : ℚ) : round2 (min a b) = min (round2 a) (round2 b) := by
  rcases le_total a b with h | h
  · rw [min_eq_left h, min_eq_left (round2_mono h)]
  · rw [min_eq_right h, min_eq_right (round2_mono h)]

/-! ## C1 -/

/-- C1: for every budget `B ≥ 0` the buckets produced by
`compute_budget_buckets` satisfy `emergency + ops_reserve + deployable = B`
(exactly, in the rational embedding, hence within floating tolerance), and
every negative budget produces exactly the buckets of budget `0`. -/
theorem C1_budget_identity (B : ℚ) :
    (0 ≤ B →
      (Config.compute_budget_buckets B).emergency
        + (Config.compute_budget_buckets B).ops_reserve
        + (Config.compute_budget_buckets B).deployable = B) ∧
    (B < 0 → Config.compute_budget_buckets B = Config.compute_budget_buckets 0) := by
  constructor
  · intro hB
    simp only [Config.compute_budget_buckets]
    have hb : max B 0 = B := max_eq_left hB
    rw [hb]
    have hem : min B (max Config.EMERGENCY_FLOOR (Config.EMERGENCY_PCT * B)) ≤ B :=
      min_le_left _ _
    have hrem : max 0 (B - min B (max Config.EMERGENCY_FLOOR (Config.EMERGENCY_PCT * B)))
        = B - min B (max Config.EMERGENCY_FLOOR (Config.EMERGENCY_PCT * B)) :=
      max_eq_right (by linarith)
    rw [hrem]
    ring
  · intro hB
    simp only [Config.compute_budget_buckets]
    have hb : max B 0 = max (0 : ℚ) 0 := by
      rw [max_eq_right hB.le, max_self]
    rw [hb]

/-- Witness for C1 at the spec scenario `B = 640000`
(emergency 51200, ops 5000, deployable 583800) and at `B = -5`. -/
theorem C1_budget_identity_witness :
    ((0 : ℚ) ≤ 640000 ∧
      (Config.compute_budget_buckets 640000).emergency
        + (Config.compute_budget_buckets 640000).ops_reserve
        + (Config.compute_budget_buckets 640000).deployable = 640000) ∧
    ((-5 : ℚ) < 0 ∧
      Config.compute_budget_buckets (-5) = Config.compute_budget_buckets 0) :=
  ⟨⟨by norm_num, (C1_budget_identity 640000).1 (by norm_num)⟩,
   ⟨by norm_num, (C1_budget_identity (-5)).2 (by norm_num)⟩⟩

/-! ## C2 -/

namespace Allocator

/-- Every position appended by the waterfall loop satisfies the cap
invariant: its notional is bounded by its final cap, the final cap is the
minimum of the four caps, and the concentration cap is
`MAX_CONCENTRATION * h_max`. -/
theorem waterfall_cap_invariant (h_max dust : ℚ) (cs : List Candidate) :
    ∀ (rem : ℚ) (acc : List Position),
      (∀ p ∈ acc,
        p.alloc_notional ≤ p.cap_final ∧
        p.cap_final = min (min (min p.cap_oi p.cap_vol) p.cap_impact) p.cap_conc ∧
        p.cap_conc = round2 (Config.MAX_CONCENTRATION * h_max)) →
      ∀ p ∈ waterfall h_max dust cs rem acc,
        p.alloc_notional ≤ p.cap_final ∧
        p.cap_final = min (min (min p.cap_oi p.cap_vol) p.cap_impact) p.cap_conc ∧
        p.cap_conc = round2 (Config.MAX_CONCENTRATION * h_max) := by
  induction cs with
  | nil => intro rem acc hacc p hp; exact hacc p hp
  | cons c rest ih =>
    intro rem acc hacc p hp
    simp only [waterfall] at hp
    split_ifs at hp with h1 h2 h3
    · exact hacc p hp
    · exact hacc p hp
    · exact ih rem acc hacc p hp
    · refine ih _ _ ?_ p hp
      intro q hq
      rcases List.mem_append.mp hq with hq | hq
      · exact hacc q hq
      · rcases List.mem_singleton.mp hq with rfl
        refine ⟨round2_mono (min_le_left _ _), ?_, rfl⟩
        simp only [round2_min]

/-- The `alloc_pct` rewrite pass of build_portfolio does not change the
cap-related fields. -/
theorem mem_build_portfolio_positions {cs : List Candidate} {B : ℚ} {p : Position}
    (hp : p ∈ (build_portfolio cs B).positions) :
    ∃ q ∈ waterfall (Config.compute_budget_buckets B).h_max
        (Config.compute_budget_buckets B).min_ticket cs
        (Config.compute_budget_buckets B).h_max [],
      p.alloc_notional = q.alloc_notional ∧ p.cap_oi = q.cap_oi ∧
      p.cap_vol = q.cap_vol ∧ p.cap_impact = q.cap_impact ∧
      p.cap_conc = q.cap_conc ∧ p.cap_final = q.cap_final := by
  rw [build_portfolio] at hp
  split_ifs at hp with h0
  · simp [_empty_portfolio] at hp
  · simp only [List.mem_map] at hp
    obtain ⟨q, hq, rfl⟩ := hp
    exact ⟨q, hq, rfl, rfl, rfl, rfl, rfl, rfl⟩

end Allocator

/-- C2: every position of a built portfolio satisfies
`alloc_notional ≤ cap_final` and
`cap_final = min(cap_oi, cap_vol, cap_impact, cap_conc)` with
`cap_conc = MAX_CONCENTRATION * h_max` (cap fields stored rounded to
cents, as in the source; exact inequality means the claim holds with
`ε = 0`). -/
theorem C2_allocation_bound (cs : List Allocator.Candidate) (B : ℚ)
    (p : Allocator.Position) (hp : p ∈ (Allocator.build_portfolio cs B).positions) :
    p.alloc_notional ≤ p.cap_final ∧
    p.cap_final = min (min (min p.cap_oi p.cap_vol) p.cap_impact) p.cap_conc ∧
    p.cap_conc = round2 (Config.MAX_CONCENTRATION * (Config.compute_budget_buckets B).h_max) := by
  obtain ⟨q, hq, e1, e2, e3, e4, e5, e6⟩ := Allocator.mem_build_portfolio_positions hp
  have := Allocator.waterfall_cap_invariant
    (Config.compute_budget_buckets B).h_max
    (Config.compute_budget_buckets B).min_ticket cs
    (Config.compute_budget_buckets B).h_max [] (by simp) q hq
  rw [e1, e2, e3, e4, e5, e6]
  exact this

theorem r2i_intCast (n : ℤ) : r2i (n : ℚ) = n := by
  unfold r2i
  rw [Int.fract_intCast]
  norm_num

theorem round2_intCast (n : ℤ) : round2 (n : ℚ) = (n : ℚ) := by
  unfold round2
  have h : ((n : ℚ) * 100) = ((n * 100 : ℤ) : ℚ) := by push_cast; ring
  rw [h, r2i_intCast]
  push_cast
  ring

theorem round2_natCast (n : ℕ) : round2 (n : ℚ) = (n : ℚ) := by
  exact_mod_cast round2_intCast (n : ℤ)

/-- Budget buckets at the witness budget 190000: emergency floor binds,
`h_max = 135000 / 1.35 = 100000` exactly. -/
theorem buckets_190000 :
    Config.compute_budget_buckets 190000 =
      { budget := 190000, emergency := 50000, ops_reserve := 5000,
        deployable := 135000, h_max := 100000, min_ticket := 100 } := by
  simp only [Config.compute_budget_buckets, Config.EMERGENCY_FLOOR, Config.EMERGENCY_PCT,
    Config.OPS_RESERVE, Config.COLLATERAL_FRACTION, Config.ALLOCATION_DUST_USD]
  norm_num [max_def, min_def]

theorem build_roomy_positions :
    (Allocator.build_portfolio [candRoomy] 190000).positions = [posRoomy] := by
  have h5000 : round2 (5000 : ℚ) = 5000 := by exact_mod_cast round2_natCast 5000
  have h6000 : round2 (6000 : ℚ) = 6000 := by exact_mod_cast round2_natCast 6000
  have h7000 : round2 (7000 : ℚ) = 7000 := by exact_mod_cast round2_natCast 7000
  have h50000 : round2 (50000 : ℚ) = 50000 := by exact_mod_cast round2_natCast 50000
  have h100 : round2 (100 : ℚ) = 100 := by exact_mod_cast round2_natCast 100
  simp only [Allocator.build_portfolio, buckets_190000]
  norm_num [Allocator.waterfall, Allocator.sumAlloc, Allocator.bindingCap, candRoomy,
    Config.MAX_NAMES, Config.MAX_CONCENTRATION, min_def, posRoomy,
    h5000, h6000, h7000, h50000, h100]

/-- Witness for C2: the concrete position built from `candRoomy` at budget
190000 satisfies the allocation bound. -/
theorem C2_allocation_bound_witness :
    posRoomy ∈ (Allocator.build_portfolio [candRoomy] 190000).positions ∧
    (posRoomy.alloc_notional ≤ posRoomy.cap_final ∧
     posRoomy.cap_final =
       min (min (min posRoomy.cap_oi posRoomy.cap_vol) posRoomy.cap_impact) posRoomy.cap_conc ∧
     posRoomy.cap_conc =
       round2 (Config.MAX_CONCENTRATION * (Config.compute_budget_buckets 190000).h_max)) :=
  have hmem : posRoomy ∈ (Allocator.build_portfolio [candRoomy] 190000).positions := by
    rw [build_roomy_positions]; exact List.mem_singleton.mpr rfl
  ⟨hmem, C2_allocation_bound [candRoomy] 190000 posRoomy hmem⟩

/-! ## C3 -/

namespace Allocator

/-- The waterfall loop only ever appends positions whose notional clears the
(non-negative) dust floor, so the accumulated total never shrinks. -/
theorem sumAlloc_le_waterfall (h_max dust : ℚ) (hdust : 0 ≤ dust) (cs : List Candidate) :
    ∀ (rem : ℚ) (acc : List Position),
      sumAlloc acc ≤ sumAlloc (waterfall h_max dust cs rem acc) := by
  induction cs with
  | nil => intro rem acc; simp [waterfall]
  | cons c rest ih =>
    intro rem acc
    simp only [waterfall]
    split_ifs with h1 h2 h3
    · exact le_refl _
    · exact le_refl _
    · exact ih rem acc
    · refine le_trans ?_ (ih _ _)
      have halloc : dust ≤ min (min (min (min c.cap_oi c.cap_vol) c.cap_impact)
          (Config.MAX_CONCENTRATION * h_max)) rem := le_of_not_lt h3
      have : (0 : ℚ) ≤ round2 (min (min (min (min c.cap_oi c.cap_vol) c.cap_impact)
          (Config.MAX_CONCENTRATION * h_max)) rem) :=
        round2_nonneg (le_trans hdust halloc)
      simp only [sumAlloc, List.map_append, List.sum_append, List.map_cons, List.map_nil,
        List.sum_cons, List.sum_nil]
      linarith

/-- Processing additional candidates after the given ones can only add
allocated notional. -/
theorem sumAlloc_waterfall_append (h_max dust : ℚ) (hdust : 0 ≤ dust)
    (l1 l2 : List Candidate) :
    ∀ (rem : ℚ) (acc : List Position),
      sumAlloc (waterfall h_max dust l1 rem acc)
        ≤ sumAlloc (waterfall h_max dust (l1 ++ l2) rem acc) := by
  induction l1 with
  | nil =>
    intro rem acc
    simpa [waterfall] using sumAlloc_le_waterfall h_max dust hdust l2 rem acc
  | cons c rest ih =>
    intro rem acc
    simp only [List.cons_append, waterfall]
    split_ifs with h1 h2 h3
    · exact le_refl _
    · exact le_refl _
    · exact ih rem acc
    · exact ih _ _

/-- The total hedge notional of a built portfolio is the rounded sum of the
waterfall allocations (or 0 when `h_max ≤ 0`). -/
theorem build_portfolio_total_hedge (cs : List Candidate) (B : ℚ) :
    (build_portfolio cs B).total_hedge_notional =
      if (Config.compute_budget_buckets B).h_max ≤ 0 then 0
      else round2 (sumAlloc (waterfall (Config.compute_budget_buckets B).h_max
        (Config.compute_budget_buckets B).min_ticket cs
        (Config.compute_budget_buckets B).h_max [])) := by
  simp only [build_portfolio, apply_ite Portfolio.total_hedge_notional, _empty_portfolio]

end Allocator

/-- C3: (a) with candidates pre-sorted by score descending, dropping the
lowest-score (last) candidate never increases the total allocated notional
of the built portfolio; (b) a candidate whose allocation falls below the
dust floor is skipped and the waterfall pass continues on the remaining
candidates with unchanged state (it does not terminate). -/
theorem C3_waterfall_monotonicity :
    (∀ (cs : List Allocator.Candidate) (c : Allocator.Candidate) (B : ℚ),
      (cs ++ [c]).Sorted (fun a b => b.score ≤ a.score) →
      (Allocator.build_portfolio cs B).total_hedge_notional
        ≤ (Allocator.build_portfolio (cs ++ [c]) B).total_hedge_notional) ∧
    (∀ (h_max dust rem : ℚ) (acc : List Allocator.Position)
        (c : Allocator.Candidate) (rest : List Allocator.Candidate),
      acc.length < Config.MAX_NAMES → dust < rem →
      min (min (min (min c.cap_oi c.cap_vol) c.cap_impact)
        (Config.MAX_CONCENTRATION * h_max)) rem < dust →
      Allocator.waterfall h_max dust (c :: rest) rem acc
        = Allocator.waterfall h_max dust rest rem acc) := by
  constructor
  · intro cs c B _hsorted
    rw [Allocator.build_portfolio_total_hedge, Allocator.build_portfolio_total_hedge]
    split_ifs with h0
    · exact le_refl _
    · have hdust : (0 : ℚ) ≤ (Config.compute_budget_buckets B).min_ticket := by
        simp [Config.compute_budget_buckets, Config.ALLOCATION_DUST_USD]
      exact round2_mono
        (Allocator.sumAlloc_waterfall_append _ _ hdust cs [c] _ _)
  · intro h_max dust rem acc c rest hlen hrem halloc
    simp only [Allocator.waterfall]
    rw [if_neg (not_le.mpr hlen), if_neg (not_le.mpr hrem), if_pos halloc]

/-- Witness for C3: dropping the dust-capped `candTiny` from
`[candRoomy, candTiny]` does not increase total notional, and the waterfall
skips `candTiny` while continuing the pass. -/
theorem C3_waterfall_monotonicity_witness :
    ((Allocator.build_portfolio [candRoomy] 190000).total_hedge_notional
      ≤ (Allocator.build_portfolio [candRoomy, candTiny] 190000).total_hedge_notional) ∧
    (Allocator.waterfall 100000 100 [candTiny, candRoomy] 100000 []
      = Allocator.waterfall 100000 100 [candRoomy] 100000 []) := by
  constructor
  · have h := C3_waterfall_monotonicity.1 [candRoomy] candTiny 190000 (by
      simp [List.Sorted, List.pairwise_cons, candRoomy, candTiny]
      norm_num)
    simpa using h
  · exact C3_waterfall_monotonicity.2 100000 100 100000 [] candTiny [candRoomy]
      (by simp [Config.MAX_NAMES]) (by norm_num)
      (by norm_num [candTiny, Config.MAX_CONCENTRATION, min_def])

/-! ## C4 and C10: impact fail-closed -/

namespace Hyperliquid

theorem depth_nonneg {levels : List Level}
    (h : ∀ l ∈ levels, 0 ≤ l.px ∧ 0 ≤ l.sz) : 0 ≤ depth levels := by
  refine List.sum_nonneg ?_
  intro x hx
  simp only [List.mem_map] at hx
  obtain ⟨l, hl, rfl⟩ := hx
  exact mul_nonneg (h l hl).1 (h l hl).2

/-- When the side's depth cannot cover the requested notional, the walk
consumes every level and leaves `remaining = notional - depth > 0`. -/
theorem walk_insufficient (levels : List Level) :
    ∀ (cost filled rem : ℚ),
      (∀ l ∈ levels, 0 ≤ l.px ∧ 0 ≤ l.sz) →
      depth levels < rem →
      (walk levels cost filled rem).2.2 = rem - depth levels := by
  induction levels with
  | nil => intro cost filled rem _ _; simp [walk, depth]
  | cons l rest ih =>
    intro cost filled rem hnn hlt
    have hrest : ∀ x ∈ rest, 0 ≤ x.px ∧ 0 ≤ x.sz :=
      fun x hx => hnn x (List.mem_cons_of_mem l hx)
    have hdr : 0 ≤ depth rest := depth_nonneg hrest
    have hdepth : depth (l :: rest) = l.px * l.sz + depth rest := by
      simp [depth]
    rw [hdepth] at hlt
    have hcond : ¬ rem ≤ l.px * l.sz := by linarith
    simp only [walk, if_neg hcond]
    rw [ih _ _ _ hrest (by linarith)]
    rw [hdepth]
    ring

/-- A walk started with non-positive remaining notional fills a
non-positive size at the first level. -/
theorem walk_nonpos (l : Level) (rest : List Level) (cost filled rem : ℚ)
    (hpx : 0 ≤ l.px) (hsz : 0 ≤ l.sz) (hrem : rem ≤ 0) :
    walk (l :: rest) cost filled rem
      = (cost + rem, filled + (if 0 < l.px then rem / l.px else 0), 0) := by
  have h : rem ≤ l.px * l.sz := le_trans hrem (mul_nonneg hpx hsz)
  simp only [walk, if_pos h]

end Hyperliquid

/-- C4: compute_impact returns 1.0 (fail-closed) whenever (a) either book
side is empty, (b) the mid price is non-positive, or (c) the walked side's
depth (for levels with non-negative price and size) cannot fully fill the
requested notional. -/
theorem C4_impact_fail_closed :
    (∀ (book : Hyperliquid.Book) (notional : ℚ) (side : String),
      book.bids = [] ∨ book.asks = [] →
      Hyperliquid.compute_impact book notional side = 1) ∧
    (∀ (book : Hyperliquid.Book) (notional : ℚ) (side : String)
        (b0 a0 : Hyperliquid.Level) (btl atl : List Hyperliquid.Level),
      book.bids = b0 :: btl → book.asks = a0 :: atl →
      (b0.px + a0.px) / 2 ≤ 0 →
      Hyperliquid.compute_impact book notional side = 1) ∧
    (∀ (book : Hyperliquid.Book) (notional : ℚ) (side : String),
      (∀ l ∈ book.bids, 0 ≤ l.px ∧ 0 ≤ l.sz) →
      (∀ l ∈ book.asks, 0 ≤ l.px ∧ 0 ≤ l.sz) →
      Hyperliquid.depth (if side = "sell" then book.bids else book.asks) < notional →
      Hyperliquid.compute_impact book notional side = 1) := by
  refine ⟨?_, ?_, ?_⟩
  · intro book notional side h
    obtain ⟨bids, asks⟩ := book
    simp only at h
    rcases h with h | h
    · subst h; simp [Hyperliquid.compute_impact]
    · subst h; cases bids <;> simp [Hyperliquid.compute_impact]
  · intro book notional side b0 a0 btl atl hb ha hmid
    obtain ⟨bids, asks⟩ := book
    simp only at hb ha
    subst hb; subst ha
    simp only [Hyperliquid.compute_impact]
    rw [if_pos hmid]
  · intro book notional side hbn han hlt
    obtain ⟨bids, asks⟩ := book
    simp only at hbn han hlt
    cases bids with
    | nil => simp [Hyperliquid.compute_impact]
    | cons b0 btl =>
      cases asks with
      | nil => simp [Hyperliquid.compute_impact]
      | cons a0 atl =>
        simp only [Hyperliquid.compute_impact]
        by_cases hmid : (b0.px + a0.px) / 2 ≤ 0
        · rw [if_pos hmid]
        · rw [if_neg hmid]
          have hnnL : ∀ l ∈ (if side = "sell" then b0 :: btl else a0 :: atl),
              0 ≤ l.px ∧ 0 ≤ l.sz := by
            by_cases hside : side = "sell" <;> simp only [hside, if_pos, if_neg,
              if_true, if_false, reduceIte] <;> first | exact hbn | exact han
          have hrem := Hyperliquid.walk_insufficient
            (if side = "sell" then b0 :: btl else a0 :: atl) 0 0 notional hnnL hlt
          rw [if_pos (Or.inr (by rw [hrem]; linarith))]

/-- Witness for C4: the three fail-closed branches at concrete books —
no bids, a zero mid, and a $1-deep book asked for $5. -/
theorem C4_impact_fail_closed_witness :
    (bookNoBids.bids = [] ∧ Hyperliquid.compute_impact bookNoBids 5 "sell" = 1) ∧
    (Hyperliquid.compute_impact bookZeroMid 5 "sell" = 1) ∧
    (Hyperliquid.depth bookShallow.bids < 5 ∧
      Hyperliquid.compute_impact bookShallow 5 "sell" = 1) := by
  refine ⟨⟨rfl, ?_⟩, ?_, ⟨?_, ?_⟩⟩
  · exact C4_impact_fail_closed.1 bookNoBids 5 "sell" (Or.inl rfl)
  · exact C4_impact_fail_closed.2.1 bookZeroMid 5 "sell" ⟨0, 1⟩ ⟨0, 1⟩ [] []
      rfl rfl (by norm_num)
  · norm_num [Hyperliquid.depth, bookShallow]
  · refine C4_impact_fail_closed.2.2 bookShallow 5 "sell" ?_ ?_ ?_
    · intro l hl
      simp only [bookShallow, List.mem_singleton] at hl
      subst hl; norm_num
    · intro l hl
      simp only [bookShallow, List.mem_singleton] at hl
      subst hl; norm_num
    · norm_num [Hyperliquid.depth, bookShallow]

/-- C10: on a two-sided book with non-negative level prices and sizes and a
positive mid, a notional of 0 (indeed any notional ≤ 0) yields impact 1.0:
the filled size is non-positive, so the fail-closed branch fires. -/
theorem C10_zero_notional (book : Hyperliquid.Book) (notional : ℚ) (side : String)
    (b0 a0 : Hyperliquid.Level) (btl atl : List Hyperliquid.Level)
    (hb : book.bids = b0 :: btl) (ha : book.asks = a0 :: atl)
    (hmid : 0 < (b0.px + a0.px) / 2)
    (hbn : ∀ l ∈ book.bids, 0 ≤ l.px ∧ 0 ≤ l.sz)
    (han : ∀ l ∈ book.asks, 0 ≤ l.px ∧ 0 ≤ l.sz)
    (hn : notional ≤ 0) :
    Hyperliquid.compute_impact book notional side = 1 := by
  obtain ⟨bids, asks⟩ := book
  simp only at hb ha hbn han
  subst hb; subst ha
  simp only [Hyperliquid.compute_impact]
  rw [if_neg (not_le.mpr hmid)]
  by_cases hside : side = "sell"
  · have hb0 := hbn b0 (List.mem_cons_self b0 btl)
    rw [if_pos hside, Hyperliquid.walk_nonpos b0 btl 0 0 notional hb0.1 hb0.2 hn]
    have hfill : (if 0 < b0.px then notional / b0.px else 0) ≤ 0 := by
      split_ifs with h
      · exact div_nonpos_of_nonpos_of_nonneg hn h.le
      · exact le_refl 0
    rw [if_pos (Or.inl (by simpa using hfill))]
  · have ha0 := han a0 (List.mem_cons_self a0 atl)
    rw [if_neg hside, Hyperliquid.walk_nonpos a0 atl 0 0 notional ha0.1 ha0.2 hn]
    have hfill : (if 0 < a0.px then notional / a0.px else 0) ≤ 0 := by
      split_ifs with h
      · exact div_nonpos_of_nonpos_of_nonneg hn h.le
      · exact le_refl 0
    rw [if_pos (Or.inl (by simpa using hfill))]

/-- Witness for C10: a zero-notional sell on the $1-deep valid book yields
impact 1. -/
theorem C10_zero_notional_witness :
    (0 : ℚ) < ((1 : ℚ) + 1) / 2 ∧
    Hyperliquid.compute_impact bookShallow 0 "sell" = 1 := by
  refine ⟨by norm_num, ?_⟩
  refine C10_zero_notional bookShallow 0 "sell" ⟨1, 1⟩ ⟨1, 1⟩ [] [] rfl rfl
    (by norm_num) ?_ ?_ (le_refl 0)
  · intro l hl
    simp only [bookShallow, List.mem_singleton] at hl
    subst hl; norm_num
  · intro l hl
    simp only [bookShallow, List.mem_singleton] at hl
    subst hl; norm_num

/-! ## C5: impact range -/

namespace Hyperliquid

/-- On a side whose prices are positive and bounded by `P`, a fillable walk
(`0 < rem ≤ depth`) terminates with zero remaining, strictly positive added
fill, strictly positive added cost, and added cost at most `P` times the
added fill. -/
theorem walk_fillable (P : ℚ) (levels : List Level) :
    ∀ (cost filled rem : ℚ),
      (∀ l ∈ levels, 0 < l.px ∧ 0 < l.sz ∧ l.px ≤ P) →
      0 < rem → rem ≤ depth levels →
      (walk levels cost filled rem).2.2 = 0 ∧
      filled < (walk levels cost filled rem).2.1 ∧
      0 < (walk levels cost filled rem).1 - cost ∧
      (walk levels cost filled rem).1 - cost
        ≤ P * ((walk levels cost filled rem).2.1 - filled) := by
  induction levels with
  | nil =>
    intro cost filled rem _ hpos hdep
    exfalso
    simp only [depth, List.map_nil, List.sum_nil] at hdep
    linarith
  | cons l rest ih =>
    intro cost filled rem h hpos hdep
    obtain ⟨hpx, hsz, hP⟩ := h l (List.mem_cons_self l rest)
    by_cases hc : rem ≤ l.px * l.sz
    · simp only [walk, if_pos hc, if_pos hpx]
      have hfill : 0 < rem / l.px := div_pos hpos hpx
      have h1 : l.px * (rem / l.px) = rem := by
        field_simp
      have h2 : l.px * (rem / l.px) ≤ P * (rem / l.px) :=
        mul_le_mul_of_nonneg_right hP hfill.le
      refine ⟨?_, by linarith, by linarith, by linarith⟩
      trivial
    · push_neg at hc
      have hrest : ∀ x ∈ rest, 0 < x.px ∧ 0 < x.sz ∧ x.px ≤ P :=
        fun x hx => h x (List.mem_cons_of_mem l hx)
      have hdepth : depth (l :: rest) = l.px * l.sz + depth rest := by
        simp [depth]
      have hdep' : rem - l.px * l.sz ≤ depth rest := by
        rw [hdepth] at hdep; linarith
      have hpos' : 0 < rem - l.px * l.sz := by linarith
      simp only [walk, if_neg (not_le.mpr hc)]
      obtain ⟨e0, e1, e2, e3⟩ :=
        ih (cost + l.px * l.sz) (filled + l.sz) (rem - l.px * l.sz) hrest hpos' hdep'
      have hln : l.px * l.sz ≤ P * l.sz := mul_le_mul_of_nonneg_right hP hsz.le
      have hlnpos : 0 < l.px * l.sz := mul_pos hpx hsz
      exact ⟨e0, by linarith, by linarith, by linarith⟩

end Hyperliquid

/-- C5 counterexample: `bookThinAsk` is a valid book (non-empty sides, bids
descending, asks ascending, positive prices and sizes) whose ask depth
fills a $100 buy, yet `compute_impact` returns ≈ 989, far above 1 — the
claim that a fillable buy on a valid book stays in [0, 1] is false. -/
theorem C5_impact_range_counterexample :
    Hyperliquid.validBook bookThinAsk ∧
    (100 : ℚ) ≤ Hyperliquid.depth bookThinAsk.asks ∧
    1 < Hyperliquid.compute_impact bookThinAsk 100 "buy" := by
  refine ⟨?_, ?_, ?_⟩
  · unfold Hyperliquid.validBook
    refine ⟨by simp [bookThinAsk], by simp [bookThinAsk], ?_, ?_, ?_, ?_⟩
    · simp [bookThinAsk]
    · norm_num [bookThinAsk, List.pairwise_cons]
    · intro l hl
      simp only [bookThinAsk, List.mem_singleton] at hl
      subst hl; norm_num
    · intro l hl
      simp only [bookThinAsk, List.mem_cons, List.mem_singleton] at hl
      rcases hl with rfl | rfl | h
      · norm_num
      · norm_num
      · cases h
  · norm_num [Hyperliquid.depth, bookThinAsk]
  · have hw : Hyperliquid.walk [⟨1, 1 / 1000⟩, ⟨1000, 10⟩] 0 0 100
        = (100, 100999 / 1000000, 0) := by
      simp only [Hyperliquid.walk]
      rw [if_neg (by norm_num), if_pos (by norm_num), if_pos (by norm_num)]
      norm_num
    simp only [Hyperliquid.compute_impact, bookThinAsk]
    rw [if_neg (by norm_num : ¬ ((1 : ℚ) + 1) / 2 ≤ 0)]
    rw [if_neg (by decide : ¬ ("buy" = "sell"))]
    rw [hw]
    rw [if_neg (by norm_num)]
    rw [abs_of_nonneg (by norm_num)]
    norm_num

/-- C5 amended: `compute_impact` is always non-negative, and on a valid
book it is at most 1 for a fillable sell (the side the scanner actually
walks); a fillable buy can exceed 1, as the counterexample shows. -/
theorem C5_impact_range_amended (book : Hyperliquid.Book) (notional : ℚ) (side : String) :
    0 ≤ Hyperliquid.compute_impact book notional side ∧
    (Hyperliquid.validBook book → side = "sell" →
      notional ≤ Hyperliquid.depth book.bids →
      Hyperliquid.compute_impact book notional side ≤ 1) := by
  obtain ⟨bids, asks⟩ := book
  constructor
  · cases bids with
    | nil => simp [Hyperliquid.compute_impact]
    | cons b0 btl =>
      cases asks with
      | nil => simp [Hyperliquid.compute_impact]
      | cons a0 atl =>
        simp only [Hyperliquid.compute_impact]
        split_ifs with h1 h2 h3 h4
        · norm_num
        · norm_num
        · exact div_nonneg (abs_nonneg _) (not_le.mp h1).le
        · norm_num
        · exact div_nonneg (abs_nonneg _) (not_le.mp h1).le
  · intro hv hside hfill
    obtain ⟨hbne, hane, hbdesc, _hasc, hbpos, hapos⟩ := hv
    simp only at hbne hane hbdesc hbpos hapos hfill
    cases bids with
    | nil => exact absurd rfl hbne
    | cons b0 btl =>
      cases asks with
      | nil => exact absurd rfl hane
      | cons a0 atl =>
        have hb0 := hbpos b0 (List.mem_cons_self b0 btl)
        have ha0 := hapos a0 (List.mem_cons_self a0 atl)
        have hmid : 0 < (b0.px + a0.px) / 2 := by
          have : 0 < b0.px + a0.px := by linarith [hb0.1, ha0.1]
          linarith
        simp only [Hyperliquid.compute_impact]
        rw [if_neg (not_le.mpr hmid), if_pos hside]
        by_cases hn : notional ≤ 0
        · rw [Hyperliquid.walk_nonpos b0 btl 0 0 notional hb0.1.le hb0.2.le hn]
          have hfz : (if 0 < b0.px then notional / b0.px else 0) ≤ 0 := by
            split_ifs with h
            · exact div_nonpos_of_nonpos_of_nonneg hn h.le
            · exact le_refl 0
          rw [if_pos (Or.inl (by simpa using hfz))]
        · push_neg at hn
          have hbound : ∀ l ∈ b0 :: btl, 0 < l.px ∧ 0 < l.sz ∧ l.px ≤ b0.px := by
            intro l hl
            rcases List.mem_cons.mp hl with rfl | hl
            · exact ⟨hb0.1, hb0.2, le_refl _⟩
            · have hp := hbpos l (List.mem_cons_of_mem b0 hl)
              have hle : l.px ≤ b0.px := (List.pairwise_cons.mp hbdesc).1 l hl
              exact ⟨hp.1, hp.2, hle⟩
          obtain ⟨e0, e1, e2, e3⟩ :=
            Hyperliquid.walk_fillable b0.px (b0 :: btl) 0 0 notional hbound hn hfill
          have hfilled : 0 < (Hyperliquid.walk (b0 :: btl) 0 0 notional).2.1 := by
            simpa using e1
          have hcost : 0 < (Hyperliquid.walk (b0 :: btl) 0 0 notional).1 := by
            linarith
          rw [if_neg (by
            rw [e0]
            simp only [not_or, not_le, not_lt]
            exact ⟨hfilled, le_refl 0⟩)]
          have hvwap_pos : 0 < (Hyperliquid.walk (b0 :: btl) 0 0 notional).1
              / (Hyperliquid.walk (b0 :: btl) 0 0 notional).2.1 := div_pos hcost hfilled
          have hvwap_le : (Hyperliquid.walk (b0 :: btl) 0 0 notional).1
              / (Hyperliquid.walk (b0 :: btl) 0 0 notional).2.1 ≤ b0.px :=
            (div_le_iff₀ hfilled).mpr (by linarith)
          rw [div_le_one hmid, abs_le]
          constructor
          · linarith
          · linarith [ha0.1]

/-- Witness for C5 (amended): a $1 sell on the shallow valid book has
impact within [0, 1]. -/
theorem C5_impact_range_amended_witness :
    0 ≤ Hyperliquid.compute_impact bookShallow 1 "sell" ∧
    Hyperliquid.compute_impact bookShallow 1 "sell" ≤ 1 := by
  have hvalid : Hyperliquid.validBook bookShallow := by
    refine ⟨by simp [bookShallow], by simp [bookShallow], by simp [bookShallow],
      by simp [bookShallow], ?_, ?_⟩
    · intro l hl
      simp only [bookShallow, List.mem_singleton] at hl
      subst hl; norm_num
    · intro l hl
      simp only [bookShallow, List.mem_singleton] at hl
      subst hl; norm_num
  exact ⟨(C5_impact_range_amended bookShallow 1 "sell").1,
    (C5_impact_range_amended bookShallow 1 "sell").2 hvalid rfl
      (by norm_num [Hyperliquid.depth, bookShallow])⟩

/-! ## C6: EMA cold start -/

/-- C6: compute_dual_ema is driven solely by epoch count — fewer than 9
epochs yields (absent, absent); 9 to 20 epochs yields only the 3-day EMA;
21 or more yields both.  The specific lengths 8, 9, 21 of the claim are the
witness instances. -/
theorem C6_ema_cold_start (epochs : List Scanner.Epoch) :
    (epochs.length < 9 → Scanner.compute_dual_ema epochs = (none, none)) ∧
    (9 ≤ epochs.length → epochs.length < 21 →
      (Scanner.compute_dual_ema epochs).1.isSome = true ∧
      (Scanner.compute_dual_ema epochs).2 = none) ∧
    (21 ≤ epochs.length →
      (Scanner.compute_dual_ema epochs).1.isSome = true ∧
      (Scanner.compute_dual_ema epochs).2.isSome = true) := by
  refine ⟨?_, ?_, ?_⟩
  · intro h
    simp only [Scanner.compute_dual_ema, Config.EMA_3D_EPOCHS, Config.EMA_7D_EPOCHS,
      List.length_map]
    rw [if_pos h]
  · intro h9 h21
    simp only [Scanner.compute_dual_ema, Config.EMA_3D_EPOCHS, Config.EMA_7D_EPOCHS,
      List.length_map]
    rw [if_neg (not_lt.mpr h9), if_pos h21]
    exact ⟨rfl, rfl⟩
  · intro h21
    simp only [Scanner.compute_dual_ema, Config.EMA_3D_EPOCHS, Config.EMA_7D_EPOCHS,
      List.length_map]
    rw [if_neg (not_lt.mpr (le_trans (by norm_num) h21)), if_neg (not_lt.mpr h21)]
    exact ⟨rfl, rfl⟩

/-- Witness for C6 at the claim's exact lengths 8, 9 and 21. -/
theorem C6_ema_cold_start_witness :
    Scanner.compute_dual_ema (List.replicate 8 (⟨10⟩ : Scanner.Epoch)) = (none, none) ∧
    ((Scanner.compute_dual_ema (List.replicate 9 (⟨10⟩ : Scanner.Epoch))).1.isSome = true ∧
     (Scanner.compute_dual_ema (List.replicate 9 (⟨10⟩ : Scanner.Epoch))).2 = none) ∧
    ((Scanner.compute_dual_ema (List.replicate 21 (⟨10⟩ : Scanner.Epoch))).1.isSome = true ∧
     (Scanner.compute_dual_ema (List.replicate 21 (⟨10⟩ : Scanner.Epoch))).2.isSome = true) :=
  ⟨(C6_ema_cold_start _).1 (by simp),
   (C6_ema_cold_start _).2.1 (by simp) (by simp),
   (C6_ema_cold_start _).2.2 (by simp)⟩

/-! ## C7: rebalance threshold -/

/-- C7: evaluate_rebalance recommends SWITCH exactly when the expected gain
strictly exceeds the $1 noise floor and is at least `cost × 1.5`; in every
other case it recommends HOLD. -/
theorem C7_rebalance_threshold (old_ps new_ps : List Rebalance.RPos) (B : ℚ) :
    ((Rebalance.evaluate_rebalance old_ps new_ps B).recommendation = "SWITCH" ↔
      (Config.REBALANCE_MIN_GAIN_USD < Rebalance.compute_expected_gain old_ps new_ps B ∧
        Rebalance.compute_switching_cost old_ps new_ps * Config.REBALANCE_COST_MULTIPLIER
          ≤ Rebalance.compute_expected_gain old_ps new_ps B)) ∧
    ((Rebalance.evaluate_rebalance old_ps new_ps B).recommendation = "HOLD" ↔
      ¬(Config.REBALANCE_MIN_GAIN_USD < Rebalance.compute_expected_gain old_ps new_ps B ∧
        Rebalance.compute_switching_cost old_ps new_ps * Config.REBALANCE_COST_MULTIPLIER
          ≤ Rebalance.compute_expected_gain old_ps new_ps B)) := by
  simp only [Rebalance.evaluate_rebalance]
  split_ifs with h
  · exact ⟨iff_of_true rfl h, iff_of_false (by decide) (not_not_intro h)⟩
  · exact ⟨iff_of_false (by decide) h, iff_of_true rfl h⟩

/-- Witness for C7: two empty portfolios at budget 0 have zero gain, so the
HOLD side of the equivalence fires. -/
theorem C7_rebalance_threshold_witness :
    (Rebalance.evaluate_rebalance [] [] 0).recommendation = "HOLD" :=
  (C7_rebalance_threshold [] [] 0).2.mpr (by
    norm_num [Rebalance.compute_expected_gain, Rebalance.portfolio_yield,
      Config.REBALANCE_MIN_GAIN_USD])

/-! ## C8: sub-noise deltas -/

/-- The coin union of the two high-APR portfolios is the single coin. -/
theorem allCoins_highApr : Rebalance.allCoins oldHighApr newHighApr = ["xyz:A"] := by
  decide

/-- C8 counterexample: `oldHighApr` and `newHighApr` differ only by a $99
per-coin delta — below the $100 noise floor — yet evaluate_rebalance
recommends SWITCH (the gain term uses the full yield difference, which the
1000% APR amplifies to ≈ $19 over the horizon, while the ignored delta
makes the cost 0). -/
theorem C8_subnoise_hold_counterexample :
    (∀ c ∈ Rebalance.allCoins oldHighApr newHighApr,
      |Rebalance.getAlloc newHighApr c - Rebalance.getAlloc oldHighApr c| < 100) ∧
    (Rebalance.evaluate_rebalance oldHighApr newHighApr 50000).recommendation = "SWITCH" := by
  constructor
  · intro c hc
    rw [allCoins_highApr] at hc
    simp only [List.mem_singleton] at hc
    subst hc
    norm_num [Rebalance.getAlloc, Rebalance.mapLookup, oldHighApr, newHighApr]
  · have hgain : Rebalance.compute_expected_gain oldHighApr newHighApr 50000 = 1386 / 73 := by
      norm_num [Rebalance.compute_expected_gain, Rebalance.portfolio_yield,
        oldHighApr, newHighApr, Config.REBALANCE_HORIZON_DAYS]
    have hcost : Rebalance.compute_switching_cost oldHighApr newHighApr = 0 := by
      rw [Rebalance.compute_switching_cost, allCoins_highApr]
      norm_num [Rebalance.costTerm, Rebalance.getAlloc, Rebalance.mapLookup,
        oldHighApr, newHighApr]
    simp only [Rebalance.evaluate_rebalance, hgain, hcost]
    rw [if_pos (by norm_num [Config.REBALANCE_MIN_GAIN_USD, Config.REBALANCE_COST_MULTIPLIER])]

/-- C8 amended: when every per-coin delta is below the $100 noise floor the
switching cost is 0 (so the threshold is 0), and the decision is HOLD
exactly when the expected gain — still computed from the full yield
difference — does not exceed the $1 noise floor; a large enough APR times
delta product still produces SWITCH. -/
theorem C8_subnoise_hold_amended (old_ps new_ps : List Rebalance.RPos) (B : ℚ)
    (hdelta : ∀ c ∈ Rebalance.allCoins old_ps new_ps,
      |Rebalance.getAlloc new_ps c - Rebalance.getAlloc old_ps c| < 100) :
    Rebalance.compute_switching_cost old_ps new_ps = 0 ∧
    ((Rebalance.evaluate_rebalance old_ps new_ps B).recommendation = "HOLD" ↔
      Rebalance.compute_expected_gain old_ps new_ps B ≤ Config.REBALANCE_MIN_GAIN_USD) := by
  have hcost : Rebalance.compute_switching_cost old_ps new_ps = 0 := by
    rw [Rebalance.compute_switching_cost]
    refine List.sum_eq_zero ?_
    intro x hx
    simp only [List.mem_map] at hx
    obtain ⟨c, hc, rfl⟩ := hx
    rw [Rebalance.costTerm]
    exact if_pos (hdelta c hc)
  refine ⟨hcost, ?_⟩
  simp only [Rebalance.evaluate_rebalance, hcost, zero_mul]
  split_ifs with h
  · refine iff_of_false (by decide) ?_
    exact not_le.mpr h.1
  · refine iff_of_true rfl ?_
    by_contra hgt
    push_neg at hgt
    refine h ⟨hgt, ?_⟩
    have h0 : (0 : ℚ) ≤ Config.REBALANCE_MIN_GAIN_USD := by
      norm_num [Config.REBALANCE_MIN_GAIN_USD]
    linarith
  
/-- Witness for C8 (amended): two literally identical portfolios have zero
deltas, zero cost, zero gain, and so HOLD. -/
theorem C8_subnoise_hold_amended_witness :
    Rebalance.compute_switching_cost oldHighApr oldHighApr = 0 ∧
    (Rebalance.evaluate_rebalance oldHighApr oldHighApr 50000).recommendation = "HOLD" := by
  have hdelta : ∀ c ∈ Rebalance.allCoins oldHighApr oldHighApr,
      |Rebalance.getAlloc oldHighApr c - Rebalance.getAlloc oldHighApr c| < 100 := by
    intro c _
    norm_num
  have h := C8_subnoise_hold_amended oldHighApr oldHighApr 50000 hdelta
  refine ⟨h.1, h.2.mpr ?_⟩
  norm_num [Rebalance.compute_expected_gain, sub_self, Config.REBALANCE_MIN_GAIN_USD]

/-! ## C9: deep-scan cohort selection -/

namespace Scanner

/-- The extension loop appends a prefix of its input, every element of
which ties or beats the cutoff. -/
theorem extendCohort_spec (cutoff : ℚ) (HARD : ℕ) (xs : List Market) :
    ∀ acc : List Market, ∃ j,
      extendCohort cutoff HARD xs acc = acc ++ xs.take j ∧
      ∀ m ∈ xs.take j, cutoff ≤ m.funding_apr := by
  induction xs with
  | nil =>
    intro acc
    exact ⟨0, by simp [extendCohort], by simp⟩
  | cons m rest ih =>
    intro acc
    rw [extendCohort]
    split_ifs with h1 h2
    · exact ⟨0, by simp, by simp⟩
    · exact ⟨0, by simp, by simp⟩
    · obtain ⟨j, hj, hmem⟩ := ih (acc ++ [m])
      refine ⟨j + 1, ?_, ?_⟩
      · rw [hj, List.take_succ_cons]
        simp
      · intro x hx
        rw [List.take_succ_cons] at hx
        rcases List.mem_cons.mp hx with rfl | hx
        · exact le_of_not_lt h2
        · exact hmem x hx

/-- The extension loop never grows the cohort past the hard ceiling. -/
theorem extendCohort_length (cutoff : ℚ) (HARD : ℕ) (xs : List Market) :
    ∀ acc, (extendCohort cutoff HARD xs acc).length ≤ max acc.length HARD := by
  induction xs with
  | nil => intro acc; simp [extendCohort]
  | cons m rest ih =>
    intro acc
    rw [extendCohort]
    split_ifs with h1 h2
    · exact le_max_left _ _
    · exact le_max_left _ _
    · calc (extendCohort cutoff HARD rest (acc ++ [m])).length
          ≤ max (acc ++ [m]).length HARD := ih _
        _ = max (acc.length + 1) HARD := by simp
        _ = HARD := max_eq_right (by omega)
        _ ≤ max acc.length HARD := le_max_right _ _

/-- Indexing into the rejection list built from the skipped markets. -/
theorem rejectSkipped_get (k : ℕ) (xs : List Market) :
    ∀ (idx j : ℕ) (m : Market), xs.get? j = some m →
      (rejectSkipped k xs idx).get? j
        = some { coin := m.coin, ticker := m.ticker, reason := cohortReason k,
                 pre_rank := k + (idx + j) + 1 } := by
  induction xs with
  | nil => intro idx j m h; simp at h
  | cons x rest ih =>
    intro idx j m h
    cases j with
    | zero =>
      simp only [List.get?] at h
      injection h with h
      subst h
      simp [rejectSkipped]
    | succ j' =>
      simp only [List.get?] at h
      simp only [rejectSkipped, List.get?]
      have harith : idx + 1 + j' = idx + (j' + 1) := by omega
      have := ih (idx + 1) j' m h
      rw [harith] at this
      exact this

end Scanner

/-- C9: with the pre-filtered markets sorted by funding descending, the
deep-scan cohort is a prefix `take (N + j)` extending the top `N` only by
markets whose funding equals the cutoff `pre_filtered[N-1].funding_apr`,
never beyond the hard ceiling; and every market left outside the cohort of
size `k` is rejected at its funding-sorted position with reason
`outside top funding cohort (scanned k)` and pre-rank `i + 1`. -/
theorem C9_cohort_selection (N HARD : ℕ) (pf : List Scanner.Market)
    (hN : 30 ≤ N) (hH : N < HARD)
    (hsorted : pf.Pairwise (fun a b => b.funding_apr ≤ a.funding_apr)) :
    (∃ j, Scanner.select_cohort N HARD pf = pf.take (N + j)) ∧
    (∀ m ∈ (Scanner.select_cohort N HARD pf).drop N,
      m.funding_apr = Scanner.cutoffOf N pf) ∧
    (Scanner.select_cohort N HARD pf).length ≤ HARD ∧
    (∀ (i : ℕ) (m : Scanner.Market),
      (Scanner.select_cohort N HARD pf).length ≤ i → pf.get? i = some m →
      (Scanner.cohort_rejections N HARD pf).get?
          (i - (Scanner.select_cohort N HARD pf).length)
        = some { coin := m.coin, ticker := m.ticker,
                 reason := Scanner.cohortReason (Scanner.select_cohort N HARD pf).length,
                 pre_rank := i + 1 }) := by
  have hrejections : ∀ (i : ℕ) (m : Scanner.Market),
      (Scanner.select_cohort N HARD pf).length ≤ i → pf.get? i = some m →
      (Scanner.cohort_rejections N HARD pf).get?
          (i - (Scanner.select_cohort N HARD pf).length)
        = some { coin := m.coin, ticker := m.ticker,
                 reason := Scanner.cohortReason (Scanner.select_cohort N HARD pf).length,
                 pre_rank := i + 1 } := by
    intro i m hi hget
    rw [Scanner.cohort_rejections]
    have hdropget : (pf.drop (Scanner.select_cohort N HARD pf).length).get?
        (i - (Scanner.select_cohort N HARD pf).length) = some m := by
      rw [List.get?_drop, Nat.add_sub_cancel' hi]
      exact hget
    have h := Scanner.rejectSkipped_get (Scanner.select_cohort N HARD pf).length
      (pf.drop (Scanner.select_cohort N HARD pf).length) 0
      (i - (Scanner.select_cohort N HARD pf).length) m hdropget
    rw [show (Scanner.select_cohort N HARD pf).length
        + (0 + (i - (Scanner.select_cohort N HARD pf).length)) + 1 = i + 1 by omega] at h
    exact h
  by_cases hlen : N < pf.length
  · have hacc_len : (pf.take N).length = N := by
      rw [List.length_take]
      omega
    obtain ⟨j, hj, htie⟩ := Scanner.extendCohort_spec (Scanner.cutoffOf N pf) HARD
      (pf.drop N) (pf.take N)
    have hsel : Scanner.select_cohort N HARD pf = pf.take N ++ (pf.drop N).take j := by
      simp only [Scanner.select_cohort, if_pos hlen]
      exact hj
    refine ⟨⟨j, by rw [hsel, List.take_add]⟩, ?_, ?_, hrejections⟩
    · intro m hm
      rw [hsel] at hm
      rw [List.drop_left' hacc_len] at hm
      refine le_antisymm ?_ (htie m hm)
      have hm' : m ∈ pf.drop N := List.take_subset j _ hm
      obtain ⟨t, ht⟩ := List.mem_iff_get.mp hm'
      have hNlt : N - 1 < pf.length := by omega
      have hcut_eq : Scanner.cutoffOf N pf = (pf.get ⟨N - 1, hNlt⟩).funding_apr := by
        rw [Scanner.cutoffOf, List.get?_eq_get hNlt]
        rfl
      have hidx : N + t.1 < pf.length := by
        have h2 := t.2
        have h3 : (List.drop N pf).length = pf.length - N := List.length_drop N pf
        omega
      have hgd : (pf.drop N).get t = pf.get ⟨N + t.1, hidx⟩ := by
        rw [List.get_drop']
      have hpair := List.pairwise_iff_get.mp hsorted ⟨N - 1, hNlt⟩ ⟨N + t.1, hidx⟩
        (by simp [Fin.lt_def]; omega)
      rw [hcut_eq]
      rw [ht] at hgd
      rw [hgd]
      exact hpair
    · rw [hsel, ← hj]
      calc (Scanner.extendCohort (Scanner.cutoffOf N pf) HARD (pf.drop N) (pf.take N)).length
          ≤ max (pf.take N).length HARD := Scanner.extendCohort_length _ _ _ _
        _ = HARD := by rw [hacc_len]; exact max_eq_right hH.le
  · have hsel : Scanner.select_cohort N HARD pf = pf.take N := by
      simp only [Scanner.select_cohort, if_neg hlen]
    refine ⟨⟨0, by rw [hsel, Nat.add_zero]⟩, ?_, ?_, hrejections⟩
    · intro m hm
      rw [hsel, List.drop_eq_nil_of_le (by rw [List.length_take]; omega)] at hm
      cases hm
    · rw [hsel]
      calc (pf.take N).length ≤ N := List.length_take_le _ _
        _ ≤ HARD := hH.le

/-- `pfW` is sorted by funding descending. -/
theorem pfW_sorted : pfW.Pairwise (fun a b => b.funding_apr ≤ a.funding_apr) := by
  rw [pfW, List.pairwise_append]
  refine ⟨List.pairwise_replicate.mpr (Or.inr (le_refl _)), by simp, ?_⟩
  intro a ha b hb
  rw [List.mem_replicate] at ha
  rw [List.mem_singleton] at hb
  subst hb
  rw [ha.2]
  norm_num [mHigh, mLow]


/-- `pfW` at the cutoff index 29 holds the APR-5 market. -/
theorem pfW_get29 : pfW.get? 29 = some mHigh := by
  rw [pfW, List.get?_append (by simp)]
  simp [List.get?_eq_getElem?, List.getElem?_replicate]

/-- The cohort cutoff on `pfW` is funding APR 5. -/
theorem cutoff_pfW : Scanner.cutoffOf 30 pfW = 5 := by
  rw [Scanner.cutoffOf, show (30 : ℕ) - 1 = 29 from rfl, pfW_get29]
  simp [mHigh]

/-- Evaluating the cohort selection on `pfW`: the APR-3 market is below the
cutoff, so the extension stops and the cohort is exactly the top 30. -/
theorem select_pfW : Scanner.select_cohort 30 50 pfW = List.replicate 30 mHigh := by
  have htake : pfW.take 30 = List.replicate 30 mHigh := by
    rw [pfW, List.take_append_eq_append_take]
    simp
  have hdrop : pfW.drop 30 = [mLow] := by
    rw [pfW, List.drop_left' (by simp)]
  simp only [Scanner.select_cohort]
  rw [if_pos (by simp [pfW] : (30 : ℕ) < pfW.length)]
  rw [hdrop, htake, cutoff_pfW]
  rw [Scanner.extendCohort]
  rw [if_neg (by simp), if_pos (by norm_num [mLow])]

/-- Witness for C9: on the 31-market list `pfW` with `N = 30`,
`HARD = 50`, the cohort stays within the hard ceiling and the 31st market
is rejected as `outside top funding cohort (scanned k)` with pre-rank 31. -/
theorem C9_cohort_selection_witness :
    ((30 : ℕ) ≤ 30 ∧ (30 : ℕ) < 50) ∧
    (Scanner.select_cohort 30 50 pfW).length ≤ 50 ∧
    (Scanner.cohort_rejections 30 50 pfW).get?
        (30 - (Scanner.select_cohort 30 50 pfW).length)
      = some { coin := "xyz:LO", ticker := "LO",
               reason := Scanner.cohortReason (Scanner.select_cohort 30 50 pfW).length,
               pre_rank := 31 } := by
  have h := C9_cohort_selection 30 50 pfW (le_refl 30) (by norm_num) pfW_sorted
  refine ⟨⟨le_refl 30, by norm_num⟩, h.2.2.1, ?_⟩
  have hk : (Scanner.select_cohort 30 50 pfW).length = 30 := by
    rw [select_pfW, List.length_replicate]
  have hget : pfW.get? 30 = some mLow := by
    rw [pfW, List.get?_append_right (by simp)]
    simp
  have hr := h.2.2.2 30 mLow (by rw [hk]) hget
  simpa [mLow] using hr
